import Mathlib

/-!
The signaling loop and the RTP relay of pion-echo (`main.go`).

A shallow embedding of the `/ws` handler of `main.go`:

* `messageReceiver` (lines 111-123), the goroutine that decodes signaling frames
  and pushes them on the channel `msgch`;
* the negotiation loop of the handler (lines 234-284);
* the creation of the two local tracks (lines 164-232);
* the `OnTrack` callback (lines 167-208): the forwarding loop and the
  picture-loss-indication ticker goroutine.

Calls into the libraries (pion/webrtc, gorilla/websocket) are operations of an
abstract `PeerAPI` over an arbitrary state type: each call threads the state
and returns the Go result of the call, and every call the code makes is
recorded, in program order, as an `Event`.  Diagnostics written with
`fmt.Printf` / `fmt.Fprintf` are not recorded.

The goroutines are put together twice: the receiver with the handler loop over
the unbuffered channel `msgch` (`handlerRun`, `taken`, `pushed`), and the
handler with the track callback (`Session`), where the callback runs only once
the handler has called `SetRemoteDescription`.
-/

namespace PionEcho

/-! ## Data model -/

/-- Go `error` value: `none` is the nil error. -/
abbrev GoError := Option String

/-- The struct `message` (lines 106-109); `Type_` is the Go field `Type`. -/
structure message where
  Type_ : String
  Payload : String
deriving DecidableEq, Repr

/-- The JSON object carried by one signaling frame, as far as the decoder of
`message` looks at it: the string members "type" and "payload", each of which
may be absent from the object. -/
structure Frame where
  typeMember : Option String
  payloadMember : Option String
deriving DecidableEq, Repr

/-- Outcome of reading one frame from the websocket: the frame's JSON object, or
the error of a malformed frame or of a closed connection. -/
abbrev ReadResult := Except String Frame

/-- Library call `websocket.ReadJSON(conn, &m)`: it runs `json.Decoder.Decode`
on the pointed struct.  Decoding a JSON object into an existing struct stores
the members present in the object and leaves every other field as it was. -/
def ReadJSON (r : ReadResult) (m : message) : message × GoError :=
  match r with
  | .error e => (m, some e)
  | .ok f => (⟨f.typeMember.getD m.Type_, f.payloadMember.getD m.Payload⟩, none)

/-- Operations performed by the producer on the channel `msgch`. -/
inductive ChanOp where
  | send (m : message)
  | close
deriving DecidableEq, Repr

/-- Type `webrtc.SDPType`. -/
inductive SDPType where
  | Offer | Pranswer | Answer | Rollback
deriving DecidableEq, Repr

/-- Type `webrtc.SessionDescription`. -/
structure SessionDescription where
  Type_ : SDPType
  SDP : String
deriving DecidableEq, Repr

/-- Type `webrtc.ICECandidateInit`; the handler sets `Candidate` only. -/
structure ICECandidateInit where
  Candidate : String
deriving DecidableEq, Repr

/-- Header fields and payload of an `rtp.Packet`. -/
structure Packet where
  Marker : Bool
  PayloadType : Nat
  SequenceNumber : Nat
  Timestamp : Nat
  SSRC : Nat
  Payload : List Nat
deriving DecidableEq, Repr

/-- A `webrtc.Track` as built by `NewTrack(payloadType, ssrc, id, label)`. -/
structure Track where
  payloadType : Nat
  ssrc : Nat
  id : String
  label : String
deriving DecidableEq, Repr

/-- Calls made by the handler and its goroutines, in program order. -/
inductive Event where
  | Recv (m : message)
  | SetRemoteDescription (desc : SessionDescription)
  | CreateAnswer
  | SetLocalDescription (desc : SessionDescription)
  | WriteJSON (m : message)
  | AddICECandidate (c : ICECandidateInit)
  | WriteRTP (t : Track) (p : Packet)
  | WriteRTCP (mediaSSRC : Nat)
deriving DecidableEq, Repr

/-- The library operations used by the handler, over an abstract state. -/
structure PeerAPI (σ : Type) where
  SetRemoteDescription : σ → SessionDescription → σ × GoError
  CreateAnswer : σ → σ × Except String SessionDescription
  SetLocalDescription : σ → SessionDescription → σ × GoError
  AddICECandidate : σ → ICECandidateInit → σ × GoError
  WriteJSON : σ → message → σ × GoError
  WriteRTP : σ → Track → Packet → σ × GoError
  WriteRTCP : σ → Nat → σ × GoError

/-! ## messageReceiver (lines 111-123) -/

/-- The loop of `messageReceiver`, started with the current value of the
variable `m`, which is declared once before the loop.  The list holds the
outcomes of the successive reads; when it is exhausted the goroutine is blocked
in the next read.  The result lists the channel operations in program order;
the channel is unbuffered, so each send completes when the handler takes it. -/
def messageReceiverFrom (m : message) : List ReadResult → List ChanOp
  | [] => []
  | r :: rs =>
    match ReadJSON r m with
    | (_, some _) => [ChanOp.close]
    | (m1, none) => ChanOp.send m1 :: messageReceiverFrom m1 rs

/-- Function `messageReceiver`: `m := message{}` and then the loop. -/
def messageReceiver (reads : List ReadResult) : List ChanOp :=
  messageReceiverFrom ⟨"", ""⟩ reads

/-! ## Negotiation loop (lines 234-284) -/

/-- Body of `if ok { switch m.Type ... }`: the new library state, the calls made
and whether the loop goes on (`true`) or jumps to the label `close` (`false`). -/
def handleMessage {σ : Type} (W : PeerAPI σ) (s : σ) (m : message) :
    σ × List Event × Bool :=
  if m.Type_ = "offer" then
    let desc : SessionDescription := ⟨SDPType.Offer, m.Payload⟩
    match W.SetRemoteDescription s desc with
    | (s1, some _) => (s1, [Event.SetRemoteDescription desc], false)
    | (s1, none) =>
      match W.CreateAnswer s1 with
      | (s2, .error _) => (s2, [Event.SetRemoteDescription desc, Event.CreateAnswer], false)
      | (s2, .ok answer) =>
        match W.SetLocalDescription s2 answer with
        | (s3, some _) =>
          (s3, [Event.SetRemoteDescription desc, Event.CreateAnswer,
                Event.SetLocalDescription answer], false)
        | (s3, none) =>
          let out : message := ⟨"answer", answer.SDP⟩
          ((W.WriteJSON s3 out).1,
           [Event.SetRemoteDescription desc, Event.CreateAnswer,
            Event.SetLocalDescription answer, Event.WriteJSON out], true)
  else if m.Type_ = "candidate" then
    let candidate : ICECandidateInit := ⟨m.Payload⟩
    ((W.AddICECandidate s candidate).1, [Event.AddICECandidate candidate], true)
  else
    (s, [], true)

/-- Where the handler stands once the given channel operations are consumed:
blocked in `<-msgch`, or past the label `close` (the handler has returned). -/
inductive Status where
  | Waiting
  | Closed
deriving DecidableEq, Repr

/-- Result of running a loop: library state, calls made, final status. -/
structure Run (σ : Type) where
  state : σ
  trace : List Event
  status : Status

/-- The `for { select { case m, ok := <-msgch: ... } }` loop, fed with the
channel operations of the producer in order. -/
def negotiationLoop {σ : Type} (W : PeerAPI σ) : σ → List ChanOp → Run σ
  | s, [] => ⟨s, [], Status.Waiting⟩
  | s, ChanOp.close :: _ => ⟨s, [], Status.Closed⟩
  | s, ChanOp.send m :: rest =>
    match handleMessage W s m with
    | (s1, evs, false) => ⟨s1, Event.Recv m :: evs, Status.Closed⟩
    | (s1, evs, true) =>
      let r := negotiationLoop W s1 rest
      ⟨r.state, Event.Recv m :: evs ++ r.trace, r.status⟩

/-- Messages taken from the channel, in the order of the trace. -/
def received : List Event → List message
  | [] => []
  | Event.Recv m :: es => m :: received es
  | _ :: es => received es

/-- Messages handed to `websocket.WriteJSON`, in the order of the trace. -/
def sent : List Event → List message
  | [] => []
  | Event.WriteJSON m :: es => m :: sent es
  | _ :: es => sent es

/-- A library in which every call succeeds; the state counts the calls and
`CreateAnswer` returns an answer with a fixed SDP. -/
def okAPI : PeerAPI Nat where
  SetRemoteDescription := fun s _ => (s + 1, none)
  CreateAnswer := fun s => (s + 1, .ok ⟨SDPType.Answer, "v=0 answer"⟩)
  SetLocalDescription := fun s _ => (s + 1, none)
  AddICECandidate := fun s _ => (s + 1, none)
  WriteJSON := fun s _ => (s + 1, none)
  WriteRTP := fun s _ _ => (s + 1, none)
  WriteRTCP := fun s _ => (s + 1, none)

/-! ## Local tracks (lines 164-232) -/

/-- Constant `webrtc.DefaultPayloadTypeVP8` of pion/webrtc v2. -/
def DefaultPayloadTypeVP8 : Nat := 96

/-- Constant `webrtc.DefaultPayloadTypeOpus` of pion/webrtc v2. -/
def DefaultPayloadTypeOpus : Nat := 111

/-- The handler variables captured by the `OnTrack` closure; `none` is nil. -/
structure Locals where
  localVideoTrack : Option Track
  localAudioTrack : Option Track
deriving DecidableEq, Repr

/-- Library call `peerConnection.NewTrack(payloadType, ssrc, id, label)` with
the given outcome: a nil track and the error, or the new track. -/
def NewTrack (err : GoError) (payloadType ssrc : Nat) (id label : String) :
    Option Track × GoError :=
  match err with
  | some e => (none, some e)
  | none => (some ⟨payloadType, ssrc, id, label⟩, none)

/-- Outcomes met by the track creation: the two values of `rand.Uint32()` and
the errors returned by `NewTrack` and `AddTrack`. -/
structure SetupEnv where
  videoSSRC : Nat
  audioSSRC : Nat
  newVideoErr : GoError
  addVideoErr : GoError
  newAudioErr : GoError
  addAudioErr : GoError

/-- Statement the handler executes next: lines 210, 216, 222, 228, the
negotiation loop at 234, or none after a `return`. -/
inductive SetupPC where
  | NewVideo | AddVideo | NewAudio | AddAudio | Loop | Returned
deriving DecidableEq, Repr

/-- State of the handler during the track creation; `added` lists the tracks
that `AddTrack` has accepted. -/
structure Setup where
  pc : SetupPC
  locals : Locals
  added : List Track
deriving DecidableEq, Repr

/-- Handler state at line 210: both variables nil (lines 164-165). -/
def setupInit : Setup := ⟨SetupPC.NewVideo, ⟨none, none⟩, []⟩

/-- One statement of lines 210-232. -/
def setupStep (E : SetupEnv) (st : Setup) : Setup :=
  match st.pc with
  | SetupPC.NewVideo =>
    match NewTrack E.newVideoErr DefaultPayloadTypeVP8 E.videoSSRC "video" "pion" with
    | (t, some _) => ⟨SetupPC.Returned, ⟨t, st.locals.localAudioTrack⟩, st.added⟩
    | (t, none) => ⟨SetupPC.AddVideo, ⟨t, st.locals.localAudioTrack⟩, st.added⟩
  | SetupPC.AddVideo =>
    match E.addVideoErr with
    | some _ => ⟨SetupPC.Returned, st.locals, st.added⟩
    | none => ⟨SetupPC.NewAudio, st.locals, st.added ++ st.locals.localVideoTrack.toList⟩
  | SetupPC.NewAudio =>
    match NewTrack E.newAudioErr DefaultPayloadTypeOpus E.audioSSRC "audio" "pion" with
    | (t, some _) => ⟨SetupPC.Returned, ⟨st.locals.localVideoTrack, t⟩, st.added⟩
    | (t, none) => ⟨SetupPC.AddAudio, ⟨st.locals.localVideoTrack, t⟩, st.added⟩
  | SetupPC.AddAudio =>
    match E.addAudioErr with
    | some _ => ⟨SetupPC.Returned, st.locals, st.added⟩
    | none => ⟨SetupPC.Loop, st.locals, st.added ++ st.locals.localAudioTrack.toList⟩
  | SetupPC.Loop => st
  | SetupPC.Returned => st

/-- Handler state after `n` statements of the track creation. -/
def setupAfter (E : SetupEnv) : Nat → Setup
  | 0 => setupInit
  | n + 1 => setupStep E (setupAfter E n)

/-! ## OnTrack callback (lines 167-208) -/

/-- How one iteration of the forwarding loop ends: the loop goes on, the
callback returns, or the goroutine panics on a nil pointer dereference. -/
inductive Control where
  | Next | Return | Fault
deriving DecidableEq, Repr

/-- Lines 202-206: `localVideoTrack.WriteRTP(rtpPacket)` and its error check. -/
def writeOut {σ : Type} (W : PeerAPI σ) (s : σ) (video : Track) (p : Packet) :
    σ × List Event × Control :=
  match W.WriteRTP s video p with
  | (s1, some _) => (s1, [Event.WriteRTP video p], Control.Return)
  | (s1, none) => (s1, [Event.WriteRTP video p], Control.Next)

/-- One iteration of the forwarding loop (lines 183-206), given the outcome of
`remoteTrack.ReadRTP()` and the values the captured variables have during the
iteration.  The cases of the `switch` are evaluated top to bottom until one
matches; calling `PayloadType()` on a nil track dereferences the nil pointer. -/
def forwardIteration {σ : Type} (W : PeerAPI σ) (s : σ) (L : Locals)
    (read : Except String Packet) : σ × List Event × Control :=
  match read with
  | .error _ => (s, [], Control.Return)
  | .ok rtpPacket =>
    match L.localVideoTrack with
    | none => (s, [], Control.Next)
    | some video =>
      if rtpPacket.PayloadType = video.payloadType then
        writeOut W s video { rtpPacket with SSRC := video.ssrc }
      else
        match L.localAudioTrack with
        | none => (s, [], Control.Fault)
        | some audio =>
          if rtpPacket.PayloadType = audio.payloadType then
            writeOut W s video { rtpPacket with SSRC := audio.ssrc }
          else
            (s, [], Control.Next)

/-- One iteration of the ticker goroutine (lines 173-179) for a tick of the
3-second ticker: the new state, the call made and whether the loop goes on. -/
def pliIteration {σ : Type} (W : PeerAPI σ) (remoteSSRC : Nat) (s : σ) :
    σ × List Event × Bool :=
  match W.WriteRTCP s remoteSSRC with
  | (s1, some _) => (s1, [Event.WriteRTCP remoteSSRC], false)
  | (s1, none) => (s1, [Event.WriteRTCP remoteSSRC], true)

/-- What happens next for one remote track: `ReadRTP` returns (with the captured
variables as they are then), or the ticker fires. -/
inductive Input where
  | packet (L : Locals) (read : Except String Packet)
  | tick

/-- The two tasks of one `OnTrack` invocation: the forwarding loop (`Next` while
it runs) and whether the ticker goroutine still runs. -/
structure Tasks where
  forwarding : Control
  ticker : Bool
deriving DecidableEq, Repr

/-- Both tasks running, as `OnTrack` starts them. -/
def tasksInit : Tasks := ⟨Control.Next, true⟩

/-- One step of an `OnTrack` invocation.  A panic of the forwarding loop ends
the process, so nothing runs after `Fault`. -/
def onTrackStep {σ : Type} (W : PeerAPI σ) (remoteSSRC : Nat) (s : σ) (T : Tasks)
    (i : Input) : σ × List Event × Tasks :=
  match T.forwarding, i with
  | Control.Fault, _ => (s, [], T)
  | Control.Next, Input.packet L read =>
    match forwardIteration W s L read with
    | (s1, evs, c) => (s1, evs, ⟨c, T.ticker⟩)
  | Control.Return, Input.packet _ _ => (s, [], T)
  | _, Input.tick =>
    if T.ticker then
      match pliIteration W remoteSSRC s with
      | (s1, evs, go) => (s1, evs, ⟨T.forwarding, go⟩)
    else (s, [], T)

/-- An `OnTrack` invocation run over a schedule of inputs: final state, calls
made in order, final state of the two tasks. -/
def onTrack {σ : Type} (W : PeerAPI σ) (remoteSSRC : Nat) :
    σ → Tasks → List Input → σ × List Event × Tasks
  | s, T, [] => (s, [], T)
  | s, T, i :: is =>
    match onTrackStep W remoteSSRC s T i with
    | (s1, evs, T1) =>
      match onTrack W remoteSSRC s1 T1 is with
      | (s2, evs2, T2) => (s2, evs ++ evs2, T2)

/-- Picture-loss indications sent, in the order of the trace. -/
def indications : List Event → List Nat
  | [] => []
  | Event.WriteRTCP ssrc :: es => ssrc :: indications es
  | _ :: es => indications es

/-- Outcomes under which the whole track creation succeeds. -/
def okEnv : SetupEnv := ⟨1001, 2002, none, none, none, none⟩

/-- A packet with the given payload type, as the remote peer sent it. -/
def samplePacket (pt : Nat) : Packet := ⟨false, pt, 17, 90000, 555, [1, 2, 3]⟩

/-- A library in which every call fails. -/
def failAPI : PeerAPI Nat where
  SetRemoteDescription := fun s _ => (s + 1, some "rejected")
  CreateAnswer := fun s => (s + 1, .error "rejected")
  SetLocalDescription := fun s _ => (s + 1, some "rejected")
  AddICECandidate := fun s _ => (s + 1, some "rejected")
  WriteJSON := fun s _ => (s + 1, some "broken pipe")
  WriteRTP := fun s _ _ => (s + 1, some "closed pipe")
  WriteRTCP := fun s _ => (s + 1, some "closed")

/-- A library whose signaling write path is broken: `WriteJSON` returns an
error, every other call succeeds. -/
def writeFailAPI : PeerAPI Nat :=
  { okAPI with WriteJSON := fun s _ => (s + 1, some "broken pipe") }

/-- Both local tracks created and added, as the spec requires before any
packet is forwarded. -/
def tracksReady (st : Setup) : Bool :=
  match st.locals.localVideoTrack, st.locals.localAudioTrack with
  | some v, some a => decide (v ∈ st.added) && decide (a ∈ st.added)
  | _, _ => false

/-- Whether a read delivered a frame. -/
def isOk : ReadResult → Bool
  | .ok _ => true
  | .error _ => false

/-- The messages decoded from the reads that precede the first failed read, in
receipt order: the value of the variable `m` after each of these reads. -/
def decodedBeforeFailure (reads : List ReadResult) : List message :=
  (List.scanl (fun m r => (ReadJSON r m).1) ⟨"", ""⟩ (reads.takeWhile isOk)).tail

/-- The video track that line 210 creates under the given outcomes. -/
def videoTrackOf (E : SetupEnv) : Track :=
  ⟨DefaultPayloadTypeVP8, E.videoSSRC, "video", "pion"⟩

/-- The audio track that line 222 creates under the given outcomes. -/
def audioTrackOf (E : SetupEnv) : Track :=
  ⟨DefaultPayloadTypeOpus, E.audioSSRC, "audio", "pion"⟩

/-- Shape of the handler state at each statement of the track creation. -/
def SetupInv (E : SetupEnv) (st : Setup) : Prop :=
  match st.pc with
  | SetupPC.NewVideo => st.locals = ⟨none, none⟩ ∧ st.added = []
  | SetupPC.AddVideo => st.locals = ⟨some (videoTrackOf E), none⟩ ∧ st.added = []
  | SetupPC.NewAudio =>
    st.locals = ⟨some (videoTrackOf E), none⟩ ∧ st.added = [videoTrackOf E]
  | SetupPC.AddAudio =>
    st.locals = ⟨some (videoTrackOf E), some (audioTrackOf E)⟩ ∧ st.added = [videoTrackOf E]
  | SetupPC.Loop =>
    st.locals = ⟨some (videoTrackOf E), some (audioTrackOf E)⟩
      ∧ st.added = [videoTrackOf E, audioTrackOf E]
  | SetupPC.Returned =>
    (st.locals.localVideoTrack = none ∨ st.locals.localVideoTrack = some (videoTrackOf E))
      ∧ (st.locals.localAudioTrack = none
          ∨ st.locals.localAudioTrack = some (audioTrackOf E))

/-! ## A session: the handler and the track callback together -/

/-- Whether a trace holds a call of `SetRemoteDescription`. -/
def describes : List Event → Bool
  | [] => false
  | Event.SetRemoteDescription _ :: _ => true
  | _ :: es => describes es

/-- What happens next in a session: the handler executes its next statement of
lines 210-232, the producer's next channel operation reaches the handler loop,
`ReadRTP` returns in the `OnTrack` invocation, or the ticker fires. -/
inductive SessionInput where
  | handler
  | chan (op : ChanOp)
  | packet (read : Except String Packet)
  | tick

/-- State of one session.  `remoteDescribed` records that the handler has called
`SetRemoteDescription` (line 245): the library learns of a remote track from the
remote description, so only then is there an `OnTrack` invocation whose
`ReadRTP` can return and whose ticker can fire. -/
structure Session (σ : Type) where
  setup : Setup
  lib : σ
  status : Status
  remoteDescribed : Bool
  tasks : Tasks

/-- Session at line 210, before any statement of the track creation. -/
def sessionInit {σ : Type} (s : σ) : Session σ :=
  ⟨setupInit, s, Status.Waiting, false, tasksInit⟩

/-- One step of a session.  The handler takes a channel operation only inside
its loop (line 234) and before the label `close`; the forwarding iteration
reads the captured variables as the handler has left them. -/
def sessionStep {σ : Type} (W : PeerAPI σ) (remoteSSRC : Nat) (E : SetupEnv)
    (st : Session σ) : SessionInput → Session σ × List Event
  | SessionInput.handler => ({ st with setup := setupStep E st.setup }, [])
  | SessionInput.chan op =>
    if st.setup.pc = SetupPC.Loop ∧ st.status = Status.Waiting then
      let r := negotiationLoop W st.lib [op]
      ({ st with lib := r.state, status := r.status,
                 remoteDescribed := st.remoteDescribed || describes r.trace }, r.trace)
    else (st, [])
  | SessionInput.packet read =>
    if st.remoteDescribed then
      match onTrackStep W remoteSSRC st.lib st.tasks (Input.packet st.setup.locals read) with
      | (s1, evs, T1) => ({ st with lib := s1, tasks := T1 }, evs)
    else (st, [])
  | SessionInput.tick =>
    if st.remoteDescribed then
      match onTrackStep W remoteSSRC st.lib st.tasks Input.tick with
      | (s1, evs, T1) => ({ st with lib := s1, tasks := T1 }, evs)
    else (st, [])

/-- A session run over a schedule: the state reached and the calls made. -/
def sessionRun {σ : Type} (W : PeerAPI σ) (remoteSSRC : Nat) (E : SetupEnv) :
    Session σ → List SessionInput → Session σ × List Event
  | st, [] => (st, [])
  | st, i :: is =>
    match sessionStep W remoteSSRC E st i with
    | (st1, evs) =>
      match sessionRun W remoteSSRC E st1 is with
      | (st2, evs2) => (st2, evs ++ evs2)

/-- Packets handed to `WriteRTP`, with the track written on, in the order of the
trace. -/
def written : List Event → List (Track × Packet)
  | [] => []
  | Event.WriteRTP t p :: es => (t, p) :: written es
  | _ :: es => written es

/-- What holds in every state of a session: the shape of the handler state, a
remote description only once the handler is in its loop, and no panic. -/
def SessionInv {σ : Type} (E : SetupEnv) (st : Session σ) : Prop :=
  SetupInv E st.setup
    ∧ (st.remoteDescribed = true → st.setup.pc = SetupPC.Loop)
    ∧ st.tasks.forwarding ≠ Control.Fault

/-! ## The signaling side: receiver goroutine and handler loop together -/

/-- Remote descriptions handed to `SetRemoteDescription`, in the order of the
trace. -/
def offered : List Event → List SessionDescription
  | [] => []
  | Event.SetRemoteDescription d :: es => d :: offered es
  | _ :: es => offered es

/-- Candidates handed to `AddICECandidate`, in the order of the trace. -/
def applied : List Event → List ICECandidateInit
  | [] => []
  | Event.AddICECandidate c :: es => c :: applied es
  | _ :: es => applied es

/-- The channel operations of the producer that complete when the handler takes
`n` messages: a send on the unbuffered channel `msgch` completes only when the
handler takes the message, and the producer goes no further while a send is
pending; `close(msgch)` does not wait for the handler. -/
def performed : Nat → List ChanOp → List ChanOp
  | _, [] => []
  | _, ChanOp.close :: _ => [ChanOp.close]
  | 0, ChanOp.send _ :: _ => []
  | n + 1, ChanOp.send m :: rest => ChanOp.send m :: performed n rest

/-- The handler loop run on the channel operations of `messageReceiver`. -/
def handlerRun {σ : Type} (W : PeerAPI σ) (s : σ) (reads : List ReadResult) : Run σ :=
  negotiationLoop W s (messageReceiver reads)

/-- The messages the handler takes from the channel, in order. -/
def taken {σ : Type} (W : PeerAPI σ) (s : σ) (reads : List ReadResult) : List message :=
  received (handlerRun W s reads).trace

/-- The channel operations of `messageReceiver` that complete, given the
messages the handler takes. -/
def pushed {σ : Type} (W : PeerAPI σ) (s : σ) (reads : List ReadResult) : List ChanOp :=
  performed (taken W s reads).length (messageReceiver reads)

/-- The close of the channel at the first failed read, if a read fails. -/
def closeAtFailure (reads : List ReadResult) : List ChanOp :=
  if reads.all isOk then [] else [ChanOp.close]

/-- Whether a message is dispatched to the case "offer". -/
def isOffer (m : message) : Bool := decide (m.Type_ = "offer")

/-- Whether a message is dispatched to the case "candidate". -/
def isCandidate (m : message) : Bool := decide (m.Type_ = "candidate")

/-- A library in which `SetRemoteDescription` accepts only the SDP "good" and
every other call succeeds. -/
def pickyAPI : PeerAPI Nat :=
  { okAPI with
    SetRemoteDescription := fun s d => (s + 1, if d.SDP = "good" then none else some "bad sdp") }

/-! ## Theorems -/

/-- C1 (the code diverges): with both local tracks created and added, a packet
whose payload type is the audio track's payload type gets the audio track's
SSRC but is written with `WriteRTP` on the video track, not on the audio
track. -/
theorem C1_audio_packet_written_on_video_track :
    (setupAfter okEnv 4).locals
        = ⟨some ⟨96, 1001, "video", "pion"⟩, some ⟨111, 2002, "audio", "pion"⟩⟩
      ∧ tracksReady (setupAfter okEnv 4) = true
      ∧ forwardIteration okAPI 0 (setupAfter okEnv 4).locals (.ok (samplePacket 111))
        = (1, [Event.WriteRTP ⟨96, 1001, "video", "pion"⟩
                 ⟨false, 111, 17, 90000, 2002, [1, 2, 3]⟩], Control.Next) := by
  decide

/-- C10 (the code diverges): a frame without a "type" member that follows an
offer is pushed with the type left over from the offer, and the negotiation
loop processes it as a second offer. -/
theorem C10_stale_type_reused :
    messageReceiver [.ok ⟨some "offer", some "sdp"⟩, .ok ⟨none, some "x"⟩]
        = [ChanOp.send ⟨"offer", "sdp"⟩, ChanOp.send ⟨"offer", "x"⟩]
      ∧ (negotiationLoop okAPI 0
          (messageReceiver [.ok ⟨some "offer", some "sdp"⟩, .ok ⟨none, some "x"⟩])).trace
        = [Event.Recv ⟨"offer", "sdp"⟩,
           Event.SetRemoteDescription ⟨SDPType.Offer, "sdp"⟩, Event.CreateAnswer,
           Event.SetLocalDescription ⟨SDPType.Answer, "v=0 answer"⟩,
           Event.WriteJSON ⟨"answer", "v=0 answer"⟩,
           Event.Recv ⟨"offer", "x"⟩,
           Event.SetRemoteDescription ⟨SDPType.Offer, "x"⟩, Event.CreateAnswer,
           Event.SetLocalDescription ⟨SDPType.Answer, "v=0 answer"⟩,
           Event.WriteJSON ⟨"answer", "v=0 answer"⟩] := by
  decide

/-- C7 (the code diverges): when the three negotiation steps of an offer succeed
and `WriteJSON` of the answer returns an error, the loop does not go to Closed:
it takes the next message from the channel and processes it. -/
theorem C7_write_error_ignored :
    (writeFailAPI.WriteJSON 3 ⟨"answer", "v=0 answer"⟩).2 = some "broken pipe"
      ∧ (negotiationLoop writeFailAPI 0
          [ChanOp.send ⟨"offer", "sdp"⟩, ChanOp.send ⟨"candidate", "c1"⟩]).trace
        = [Event.Recv ⟨"offer", "sdp"⟩,
           Event.SetRemoteDescription ⟨SDPType.Offer, "sdp"⟩, Event.CreateAnswer,
           Event.SetLocalDescription ⟨SDPType.Answer, "v=0 answer"⟩,
           Event.WriteJSON ⟨"answer", "v=0 answer"⟩,
           Event.Recv ⟨"candidate", "c1"⟩, Event.AddICECandidate ⟨"c1"⟩]
      ∧ (negotiationLoop writeFailAPI 0
          [ChanOp.send ⟨"offer", "sdp"⟩, ChanOp.send ⟨"candidate", "c1"⟩]).status
        = Status.Waiting := by
  decide

/-- Unfolding of the loop at a message after which the loop goes on. -/
theorem negotiationLoop_send_go {σ : Type} (W : PeerAPI σ) (s s1 : σ) (m : message)
    (evs : List Event) (rest : List ChanOp) (h : handleMessage W s m = (s1, evs, true)) :
    negotiationLoop W s (ChanOp.send m :: rest)
      = ⟨(negotiationLoop W s1 rest).state,
         Event.Recv m :: evs ++ (negotiationLoop W s1 rest).trace,
         (negotiationLoop W s1 rest).status⟩ := by
  simp [negotiationLoop, h]

/-- Unfolding of the loop at a message that makes it jump to `close`. -/
theorem negotiationLoop_send_stop {σ : Type} (W : PeerAPI σ) (s s1 : σ) (m : message)
    (evs : List Event) (rest : List ChanOp) (h : handleMessage W s m = (s1, evs, false)) :
    negotiationLoop W s (ChanOp.send m :: rest) = ⟨s1, Event.Recv m :: evs, Status.Closed⟩ := by
  simp [negotiationLoop, h]

/-- C3: for an offer message, if SetRemoteDescription, CreateAnswer and
SetLocalDescription all succeed, the handler makes exactly one WriteJSON call,
with type "answer" and the SDP of the answer that was created and applied, and
the loop goes on with the rest of the channel; if one of the three steps fails,
no message is written, the loop is Closed and nothing after the offer is taken
from the channel. -/
theorem C3_offer_answer_or_close {σ : Type} (W : PeerAPI σ) (s : σ) (m : message)
    (rest : List ChanOp) (hm : m.Type_ = "offer") :
    (∀ (s1 s2 s3 : σ) (answer : SessionDescription),
        W.SetRemoteDescription s ⟨SDPType.Offer, m.Payload⟩ = (s1, none) →
        W.CreateAnswer s1 = (s2, .ok answer) →
        W.SetLocalDescription s2 answer = (s3, none) →
        (handleMessage W s m).2.1
            = [Event.SetRemoteDescription ⟨SDPType.Offer, m.Payload⟩, Event.CreateAnswer,
               Event.SetLocalDescription answer, Event.WriteJSON ⟨"answer", answer.SDP⟩]
          ∧ sent (handleMessage W s m).2.1 = [⟨"answer", answer.SDP⟩]
          ∧ negotiationLoop W s (ChanOp.send m :: rest)
            = ⟨(negotiationLoop W (W.WriteJSON s3 ⟨"answer", answer.SDP⟩).1 rest).state,
               Event.Recv m :: (handleMessage W s m).2.1
                 ++ (negotiationLoop W (W.WriteJSON s3 ⟨"answer", answer.SDP⟩).1 rest).trace,
               (negotiationLoop W (W.WriteJSON s3 ⟨"answer", answer.SDP⟩).1 rest).status⟩)
    ∧ ((¬ ∃ (s1 s2 s3 : σ) (answer : SessionDescription),
          W.SetRemoteDescription s ⟨SDPType.Offer, m.Payload⟩ = (s1, none)
            ∧ W.CreateAnswer s1 = (s2, .ok answer)
            ∧ W.SetLocalDescription s2 answer = (s3, none)) →
        sent (negotiationLoop W s (ChanOp.send m :: rest)).trace = []
          ∧ (negotiationLoop W s (ChanOp.send m :: rest)).status = Status.Closed
          ∧ received (negotiationLoop W s (ChanOp.send m :: rest)).trace = [m]) := by
  constructor
  · intro s1 s2 s3 answer h1 h2 h3
    have hh : handleMessage W s m
        = ((W.WriteJSON s3 ⟨"answer", answer.SDP⟩).1,
           [Event.SetRemoteDescription ⟨SDPType.Offer, m.Payload⟩, Event.CreateAnswer,
            Event.SetLocalDescription answer, Event.WriteJSON ⟨"answer", answer.SDP⟩], true) := by
      simp [handleMessage, hm, h1, h2, h3]
    refine ⟨by rw [hh], by rw [hh]; rfl, ?_⟩
    rw [negotiationLoop_send_go W s _ m _ rest hh, hh]
  · intro hno
    rcases h1 : W.SetRemoteDescription s ⟨SDPType.Offer, m.Payload⟩ with ⟨s1, e1⟩
    cases e1 with
    | some e =>
      have hh : handleMessage W s m
          = (s1, [Event.SetRemoteDescription ⟨SDPType.Offer, m.Payload⟩], false) := by
        simp [handleMessage, hm, h1]
      rw [negotiationLoop_send_stop W s _ m _ rest hh]
      exact ⟨rfl, rfl, rfl⟩
    | none =>
      rcases h2 : W.CreateAnswer s1 with ⟨s2, r2⟩
      cases r2 with
      | error e =>
        have hh : handleMessage W s m
            = (s2, [Event.SetRemoteDescription ⟨SDPType.Offer, m.Payload⟩,
                    Event.CreateAnswer], false) := by
          simp [handleMessage, hm, h1, h2]
        rw [negotiationLoop_send_stop W s _ m _ rest hh]
        exact ⟨rfl, rfl, rfl⟩
      | ok answer =>
        rcases h3 : W.SetLocalDescription s2 answer with ⟨s3, e3⟩
        cases e3 with
        | some e =>
          have hh : handleMessage W s m
              = (s3, [Event.SetRemoteDescription ⟨SDPType.Offer, m.Payload⟩,
                      Event.CreateAnswer, Event.SetLocalDescription answer], false) := by
            simp [handleMessage, hm, h1, h2, h3]
          rw [negotiationLoop_send_stop W s _ m _ rest hh]
          exact ⟨rfl, rfl, rfl⟩
        | none => exact absurd ⟨s1, s2, s3, answer, h1, h2, h3⟩ hno

/-- Witness of C3: an offer in a library where every call succeeds gets exactly
one answer, and an offer in a library where the calls fail gets none and closes
the loop before the candidate that follows. -/
theorem C3_offer_answer_or_close_witness :
    sent (handleMessage okAPI 0 ⟨"offer", "sdp"⟩).2.1 = [⟨"answer", "v=0 answer"⟩]
      ∧ (sent (negotiationLoop failAPI 0
            [ChanOp.send ⟨"offer", "sdp"⟩, ChanOp.send ⟨"candidate", "c1"⟩]).trace = []
          ∧ (negotiationLoop failAPI 0
            [ChanOp.send ⟨"offer", "sdp"⟩, ChanOp.send ⟨"candidate", "c1"⟩]).status
              = Status.Closed
          ∧ received (negotiationLoop failAPI 0
            [ChanOp.send ⟨"offer", "sdp"⟩, ChanOp.send ⟨"candidate", "c1"⟩]).trace
              = [⟨"offer", "sdp"⟩]) :=
  ⟨((C3_offer_answer_or_close okAPI 0 ⟨"offer", "sdp"⟩ [] rfl).1 1 2 3
      ⟨SDPType.Answer, "v=0 answer"⟩ rfl rfl rfl).2.1,
   (C3_offer_answer_or_close failAPI 0 ⟨"offer", "sdp"⟩
      [ChanOp.send ⟨"candidate", "c1"⟩] rfl).2
      (by rintro ⟨s1, s2, s3, answer, h1, -, -⟩; simp [failAPI] at h1)⟩

/-- C5: for a candidate message, whatever AddICECandidate returns, the handler
calls AddICECandidate exactly once with the message payload, writes no
signaling message, and the loop goes on with the rest of the channel. -/
theorem C5_candidate_never_closes {σ : Type} (W : PeerAPI σ) (s : σ) (m : message)
    (rest : List ChanOp) (hm : m.Type_ = "candidate") :
    (handleMessage W s m).2.1 = [Event.AddICECandidate ⟨m.Payload⟩]
      ∧ sent (handleMessage W s m).2.1 = []
      ∧ negotiationLoop W s (ChanOp.send m :: rest)
        = ⟨(negotiationLoop W (W.AddICECandidate s ⟨m.Payload⟩).1 rest).state,
           Event.Recv m :: Event.AddICECandidate ⟨m.Payload⟩
             :: (negotiationLoop W (W.AddICECandidate s ⟨m.Payload⟩).1 rest).trace,
           (negotiationLoop W (W.AddICECandidate s ⟨m.Payload⟩).1 rest).status⟩ := by
  have hh : handleMessage W s m
      = ((W.AddICECandidate s ⟨m.Payload⟩).1, [Event.AddICECandidate ⟨m.Payload⟩], true) := by
    simp [handleMessage, hm]
  refine ⟨by rw [hh], by rw [hh]; rfl, ?_⟩
  rw [negotiationLoop_send_go W s _ m _ rest hh]
  rfl

/-- Witness of C5: a candidate that AddICECandidate rejects is followed by the
processing of the next candidate. -/
theorem C5_candidate_never_closes_witness :
    (failAPI.AddICECandidate 0 ⟨"bad"⟩).2 = some "rejected"
      ∧ negotiationLoop failAPI 0 [ChanOp.send ⟨"candidate", "bad"⟩,
          ChanOp.send ⟨"candidate", "c2"⟩]
        = ⟨2, [Event.Recv ⟨"candidate", "bad"⟩, Event.AddICECandidate ⟨"bad"⟩,
               Event.Recv ⟨"candidate", "c2"⟩, Event.AddICECandidate ⟨"c2"⟩],
           Status.Waiting⟩ :=
  ⟨rfl, (C5_candidate_never_closes failAPI 0 ⟨"candidate", "bad"⟩
      [ChanOp.send ⟨"candidate", "c2"⟩] rfl).2.2⟩

/-- A scan starts with its initial value. -/
theorem scanl_head_tail {α β : Type} (f : α → β → α) (a : α) (l : List β) :
    List.scanl f a l = a :: (List.scanl f a l).tail := by
  cases l <;> simp [List.scanl]

/-- The receiver loop pushes the values of `m` after the reads that precede the
first failure and closes the channel at that failure. -/
theorem messageReceiverFrom_eq (m : message) (reads : List ReadResult) :
    messageReceiverFrom m reads
      = ((List.scanl (fun m r => (ReadJSON r m).1) m (reads.takeWhile isOk)).tail).map
          ChanOp.send
        ++ (if reads.all isOk then [] else [ChanOp.close]) := by
  induction reads generalizing m with
  | nil => simp [messageReceiverFrom]
  | cons r rs ih =>
    cases r with
    | error e => simp [messageReceiverFrom, ReadJSON, isOk]
    | ok f =>
      have hrj : ReadJSON (.ok f) m
          = (⟨f.typeMember.getD m.Type_, f.payloadMember.getD m.Payload⟩, none) := rfl
      have hs := scanl_head_tail (fun m r => (ReadJSON r m).1)
        (⟨f.typeMember.getD m.Type_, f.payloadMember.getD m.Payload⟩ : message)
        (rs.takeWhile isOk)
      rw [messageReceiverFrom, hrj]
      simp only [isOk, List.takeWhile_cons, List.scanl, List.tail_cons, List.all_cons,
        Bool.true_and, if_true, hrj]
      rw [ih, hs]
      simp

/-- The handling of one message takes nothing from the channel. -/
theorem received_handleMessage {σ : Type} (W : PeerAPI σ) (s : σ) (m : message) :
    received (handleMessage W s m).2.1 = [] := by
  unfold handleMessage
  split
  · dsimp only
    split
    · rfl
    · split
      · rfl
      · split <;> rfl
  · split <;> rfl

/-- Messages received along two concatenated traces. -/
theorem received_append (xs ys : List Event) :
    received (xs ++ ys) = received xs ++ received ys := by
  induction xs with
  | nil => rfl
  | cons e es ih => cases e <;> simp [received, ih]

/-- Observing the closed channel: the loop is Closed with the state and the
calls it had after the messages before the close, whatever follows it. -/
theorem negotiationLoop_close {σ : Type} (W : PeerAPI σ) (s : σ) (ms : List message)
    (rest : List ChanOp) :
    negotiationLoop W s (ms.map ChanOp.send ++ ChanOp.close :: rest)
      = ⟨(negotiationLoop W s (ms.map ChanOp.send)).state,
         (negotiationLoop W s (ms.map ChanOp.send)).trace, Status.Closed⟩ := by
  induction ms generalizing s with
  | nil => simp [negotiationLoop]
  | cons m ms ih =>
    rcases hh : handleMessage W s m with ⟨s1, evs, go⟩
    cases go with
    | false =>
      simp [negotiationLoop_send_stop W s s1 m evs _ hh]
    | true =>
      simp only [List.map_cons, List.cons_append]
      rw [negotiationLoop_send_go W s s1 m evs _ hh,
        negotiationLoop_send_go W s s1 m evs _ hh, ih]

/-- The loop takes the messages from the channel in the order they were
pushed, and all of them unless it jumps to `close`. -/
theorem received_negotiationLoop {σ : Type} (W : PeerAPI σ) (s : σ) (ms : List message) :
    received (negotiationLoop W s (ms.map ChanOp.send)).trace <+: ms
      ∧ ((negotiationLoop W s (ms.map ChanOp.send)).status = Status.Waiting →
          received (negotiationLoop W s (ms.map ChanOp.send)).trace = ms) := by
  induction ms generalizing s with
  | nil => simp [negotiationLoop, received]
  | cons m ms ih =>
    rcases hh : handleMessage W s m with ⟨s1, evs, go⟩
    have hr : received evs = [] := by
      have := received_handleMessage W s m
      rw [hh] at this
      exact this
    cases go with
    | false =>
      simp only [List.map_cons]
      rw [negotiationLoop_send_stop W s s1 m evs _ hh]
      simp [received, hr]
    | true =>
      simp only [List.map_cons]
      rw [negotiationLoop_send_go W s s1 m evs _ hh]
      have hrec : ∀ t : List Event, received (Event.Recv m :: evs ++ t) = m :: received t := by
        intro t
        rw [List.cons_append, received, received_append, hr, List.nil_append]
      rw [hrec]
      refine ⟨?_, fun h => ?_⟩
      · exact (List.prefix_cons_inj m).2 (ih s1).1
      · rw [(ih s1).2 h]

/-- Only a message dispatched to the case "offer" makes the loop jump to
`close`. -/
theorem handleMessage_stop_offer {σ : Type} (W : PeerAPI σ) (s : σ) (m : message)
    (h : (handleMessage W s m).2.2 = false) : m.Type_ = "offer" := by
  by_contra hne
  by_cases hc : m.Type_ = "candidate"
  · simp [handleMessage, hne, hc] at h
  · simp [handleMessage, hne, hc] at h

/-- An offer whose three negotiation steps succeed lets the loop go on. -/
theorem handleMessage_offer_go {σ : Type} (W : PeerAPI σ) (s s1 s2 s3 : σ) (m : message)
    (answer : SessionDescription) (hm : m.Type_ = "offer")
    (h1 : W.SetRemoteDescription s ⟨SDPType.Offer, m.Payload⟩ = (s1, none))
    (h2 : W.CreateAnswer s1 = (s2, .ok answer))
    (h3 : W.SetLocalDescription s2 answer = (s3, none)) :
    handleMessage W s m
      = ((W.WriteJSON s3 ⟨"answer", answer.SDP⟩).1,
         [Event.SetRemoteDescription ⟨SDPType.Offer, m.Payload⟩, Event.CreateAnswer,
          Event.SetLocalDescription answer, Event.WriteJSON ⟨"answer", answer.SDP⟩], true) := by
  simp [handleMessage, hm, h1, h2, h3]

/-- Remote descriptions applied by the handling of one message. -/
theorem offered_handleMessage {σ : Type} (W : PeerAPI σ) (s : σ) (m : message) :
    offered (handleMessage W s m).2.1
      = if isOffer m then [⟨SDPType.Offer, m.Payload⟩] else [] := by
  unfold handleMessage isOffer
  split
  · rename_i hm
    simp only [hm, decide_True, if_true]
    split
    · rfl
    · split
      · rfl
      · split <;> rfl
  · rename_i hm
    simp only [hm, decide_False, Bool.false_eq_true, if_false]
    split <;> rfl

/-- Candidates applied by the handling of one message. -/
theorem applied_handleMessage {σ : Type} (W : PeerAPI σ) (s : σ) (m : message) :
    applied (handleMessage W s m).2.1 = if isCandidate m then [⟨m.Payload⟩] else [] := by
  unfold handleMessage isCandidate
  split
  · rename_i hm
    have hc : ¬ m.Type_ = "candidate" := by rw [hm]; decide
    simp only [hc, decide_False, Bool.false_eq_true, if_false]
    split
    · rfl
    · split
      · rfl
      · split <;> rfl
  · split
    · rename_i hc
      simp only [hc, decide_True, if_true]
      rfl
    · rename_i hc
      simp only [hc, decide_False, Bool.false_eq_true, if_false]
      rfl

/-- Answers written by the handling of one message after which the loop goes
on: one for an offer, none otherwise. -/
theorem sent_handleMessage_go {σ : Type} (W : PeerAPI σ) (s : σ) (m : message)
    (h : (handleMessage W s m).2.2 = true) :
    (sent (handleMessage W s m).2.1).length = if isOffer m then 1 else 0 := by
  unfold handleMessage isOffer at *
  split at h
  · rename_i hm
    simp only [hm, decide_True, if_true]
    dsimp only at h ⊢
    split at h
    · simp at h
    · split at h
      · simp at h
      · split at h
        · simp at h
        · rfl
  · rename_i hm
    simp only [hm, decide_False, Bool.false_eq_true, if_false]
    split <;> rfl

/-- Remote descriptions along two concatenated traces. -/
theorem offered_append (xs ys : List Event) :
    offered (xs ++ ys) = offered xs ++ offered ys := by
  induction xs with
  | nil => rfl
  | cons e es ih => cases e <;> simp [offered, ih]

/-- Candidates along two concatenated traces. -/
theorem applied_append (xs ys : List Event) :
    applied (xs ++ ys) = applied xs ++ applied ys := by
  induction xs with
  | nil => rfl
  | cons e es ih => cases e <;> simp [applied, ih]

/-- Answers along two concatenated traces. -/
theorem sent_append (xs ys : List Event) : sent (xs ++ ys) = sent xs ++ sent ys := by
  induction xs with
  | nil => rfl
  | cons e es ih => cases e <;> simp [sent, ih]

/-- The loop stops before the end of the queue only at an offer. -/
theorem negotiationLoop_all_or_offer {σ : Type} (W : PeerAPI σ) (s : σ)
    (ms : List message) :
    received (negotiationLoop W s (ms.map ChanOp.send)).trace = ms
      ∨ ((negotiationLoop W s (ms.map ChanOp.send)).status = Status.Closed
        ∧ ∃ m, (received (negotiationLoop W s (ms.map ChanOp.send)).trace).getLast? = some m
            ∧ m.Type_ = "offer") := by
  induction ms generalizing s with
  | nil => exact Or.inl rfl
  | cons m ms ih =>
    rcases hh : handleMessage W s m with ⟨s1, evs, go⟩
    have hr : received evs = [] := by
      have := received_handleMessage W s m
      rw [hh] at this
      exact this
    have hrec : ∀ t : List Event, received (Event.Recv m :: evs ++ t) = m :: received t := by
      intro t
      rw [List.cons_append, received, received_append, hr, List.nil_append]
    cases go with
    | false =>
      have hoff : m.Type_ = "offer" := handleMessage_stop_offer W s m (by rw [hh])
      simp only [List.map_cons]
      rw [negotiationLoop_send_stop W s s1 m evs _ hh]
      refine Or.inr ⟨rfl, m, ?_, hoff⟩
      have : received (Event.Recv m :: evs) = [m] := by
        have := hrec []
        simpa using this
      rw [this]
      rfl
    | true =>
      simp only [List.map_cons]
      rw [negotiationLoop_send_go W s s1 m evs _ hh]
      simp only [hrec]
      rcases ih s1 with hall | ⟨hst, m2, hlast, hoff⟩
      · exact Or.inl (by rw [hall])
      · refine Or.inr ⟨hst, m2, ?_, hoff⟩
        cases hR : received (negotiationLoop W s1 (ms.map ChanOp.send)).trace with
        | nil => rw [hR] at hlast; simp at hlast
        | cons r rs =>
          rw [hR] at hlast
          rw [List.getLast?_cons_cons]
          exact hlast

/-- Every message the loop takes is dispatched: the remote descriptions applied
are those of the offers taken and the candidates applied are those of the
candidate messages taken, in the same order. -/
theorem negotiationLoop_dispatch {σ : Type} (W : PeerAPI σ) (s : σ) (ms : List message) :
    offered (negotiationLoop W s (ms.map ChanOp.send)).trace
        = ((received (negotiationLoop W s (ms.map ChanOp.send)).trace).filter isOffer).map
            (fun m => ⟨SDPType.Offer, m.Payload⟩)
      ∧ applied (negotiationLoop W s (ms.map ChanOp.send)).trace
        = ((received (negotiationLoop W s (ms.map ChanOp.send)).trace).filter isCandidate).map
            (fun m => ⟨m.Payload⟩) := by
  induction ms generalizing s with
  | nil => exact ⟨rfl, rfl⟩
  | cons m ms ih =>
    rcases hh : handleMessage W s m with ⟨s1, evs, go⟩
    have hr : received evs = [] := by
      have := received_handleMessage W s m
      rw [hh] at this
      exact this
    have ho : offered evs = if isOffer m then [⟨SDPType.Offer, m.Payload⟩] else [] := by
      have := offered_handleMessage W s m
      rw [hh] at this
      exact this
    have ha : applied evs = if isCandidate m then [⟨m.Payload⟩] else [] := by
      have := applied_handleMessage W s m
      rw [hh] at this
      exact this
    have hrec : ∀ t : List Event, received (Event.Recv m :: evs ++ t) = m :: received t := by
      intro t
      rw [List.cons_append, received, received_append, hr, List.nil_append]
    have hoff : ∀ t : List Event,
        offered (Event.Recv m :: evs ++ t) = offered evs ++ offered t := by
      intro t
      show offered (evs ++ t) = _
      exact offered_append evs t
    have happ : ∀ t : List Event,
        applied (Event.Recv m :: evs ++ t) = applied evs ++ applied t := by
      intro t
      show applied (evs ++ t) = _
      exact applied_append evs t
    cases go with
    | false =>
      simp only [List.map_cons]
      rw [negotiationLoop_send_stop W s s1 m evs _ hh]
      have e1 := hrec []
      have e2 := hoff []
      have e3 := happ []
      simp only [List.append_nil] at e1 e2 e3
      have r0 : received ([] : List Event) = [] := rfl
      have o0 : offered ([] : List Event) = [] := rfl
      have a0 : applied ([] : List Event) = [] := rfl
      rw [r0] at e1
      rw [o0, List.append_nil] at e2
      rw [a0, List.append_nil] at e3
      rw [e1, e2, e3, ho, ha]
      constructor
      · cases hb : isOffer m <;> simp [List.filter, hb]
      · cases hb : isCandidate m <;> simp [List.filter, hb]
    | true =>
      simp only [List.map_cons]
      rw [negotiationLoop_send_go W s s1 m evs _ hh]
      simp only [hrec, hoff, happ]
      rw [(ih s1).1, (ih s1).2, ho, ha]
      constructor
      · cases hb : isOffer m <;> simp [List.filter, hb]
      · cases hb : isCandidate m <;> simp [List.filter, hb]

/-- When no message of the queue makes the loop jump to `close`, the loop takes
them all, stays open, and writes one answer per offer. -/
theorem negotiationLoop_go_all {σ : Type} (W : PeerAPI σ) (s : σ) (ms : List message)
    (hgo : ∀ (s1 : σ) (m : message), m ∈ ms → (handleMessage W s1 m).2.2 = true) :
    (negotiationLoop W s (ms.map ChanOp.send)).status = Status.Waiting
      ∧ (sent (negotiationLoop W s (ms.map ChanOp.send)).trace).length
        = (ms.filter isOffer).length := by
  induction ms generalizing s with
  | nil => exact ⟨rfl, rfl⟩
  | cons m ms ih =>
    have hm := hgo s m (List.mem_cons_self m ms)
    have hsl := sent_handleMessage_go W s m hm
    rcases hh : handleMessage W s m with ⟨s1, evs, go⟩
    rw [hh] at hm hsl
    simp only at hm hsl
    subst hm
    have ih1 := ih s1 (fun s2 m2 hmem => hgo s2 m2 (List.mem_cons_of_mem m hmem))
    simp only [List.map_cons]
    rw [negotiationLoop_send_go W s s1 m evs _ hh]
    refine ⟨ih1.1, ?_⟩
    have hsent : ∀ t : List Event, sent (Event.Recv m :: evs ++ t) = sent evs ++ sent t := by
      intro t
      show sent (evs ++ t) = _
      exact sent_append evs t
    simp only [hsent, List.length_append, hsl, ih1.2]
    cases hb : isOffer m <;> simp [List.filter, hb]
    omega

/-- Closed form of the operations that complete on a queue of sends followed by
at most one close. -/
theorem performed_sends (ms : List message) (k : Nat) (tl : List ChanOp)
    (htl : tl = [] ∨ tl = [ChanOp.close]) :
    performed k (ms.map ChanOp.send ++ tl)
      = (ms.take k).map ChanOp.send ++ (if ms.length ≤ k then tl else []) := by
  induction ms generalizing k with
  | nil =>
    rcases htl with rfl | rfl
    · cases k <;> simp [performed]
    · cases k <;> simp [performed]
  | cons m ms ih =>
    cases k with
    | zero => simp [performed]
    | succ k =>
      have hstep : performed (k + 1) (ChanOp.send m :: (ms.map ChanOp.send ++ tl))
          = ChanOp.send m :: performed k (ms.map ChanOp.send ++ tl) := rfl
      simp only [List.map_cons, List.cons_append, List.take_succ_cons, List.length_cons,
        Nat.add_le_add_iff_right]
      rw [hstep, ih k]

/-- C6: in program order messageReceiver pushes the messages decoded before the
first failed read, in receipt order, then closes the channel once, at that
read, and pushes nothing after it; the pushes that complete are those of the
messages the handler takes, and the close completes when the handler has taken
them all.  The negotiation loop takes the queued messages in that same order
and dispatches each one it takes (every offer to SetRemoteDescription, every
candidate to AddICECandidate); it stops before the end of the queue only at an
offer, and takes every message when no offer fails.  On observing the closed
channel it is Closed, in any state, without a further call: no message is
processed and no answer is sent after it. -/
theorem C6_receiver_order_and_close {σ : Type} (W : PeerAPI σ) (s : σ)
    (reads : List ReadResult) :
    messageReceiver reads
        = (decodedBeforeFailure reads).map ChanOp.send ++ closeAtFailure reads
      ∧ (decodedBeforeFailure reads).length = (reads.takeWhile isOk).length
      ∧ pushed W s reads
        = (taken W s reads).map ChanOp.send
          ++ (if taken W s reads = decodedBeforeFailure reads then closeAtFailure reads
              else [])
      ∧ taken W s reads <+: decodedBeforeFailure reads
      ∧ (taken W s reads = decodedBeforeFailure reads
        ∨ ((handlerRun W s reads).status = Status.Closed
          ∧ ∃ m, (taken W s reads).getLast? = some m ∧ m.Type_ = "offer"))
      ∧ offered (handlerRun W s reads).trace
        = ((taken W s reads).filter isOffer).map (fun m => ⟨SDPType.Offer, m.Payload⟩)
      ∧ applied (handlerRun W s reads).trace
        = ((taken W s reads).filter isCandidate).map (fun m => ⟨m.Payload⟩)
      ∧ ((∀ (s1 : σ) (m : message), m ∈ decodedBeforeFailure reads → m.Type_ = "offer" →
            ∃ (s2 s3 s4 : σ) (answer : SessionDescription),
              W.SetRemoteDescription s1 ⟨SDPType.Offer, m.Payload⟩ = (s2, none)
                ∧ W.CreateAnswer s2 = (s3, .ok answer)
                ∧ W.SetLocalDescription s3 answer = (s4, none)) →
          taken W s reads = decodedBeforeFailure reads
            ∧ pushed W s reads = messageReceiver reads
            ∧ (sent (handlerRun W s reads).trace).length
              = ((decodedBeforeFailure reads).filter isOffer).length
            ∧ (handlerRun W s reads).status
              = if reads.all isOk then Status.Waiting else Status.Closed)
      ∧ (reads.all isOk = false →
          (handlerRun W s reads).status = Status.Closed
            ∧ (handlerRun W s reads).trace
              = (negotiationLoop W s ((decodedBeforeFailure reads).map ChanOp.send)).trace)
      ∧ (∀ (s1 : σ) (rest : List ChanOp),
          negotiationLoop W s1 (ChanOp.close :: rest) = ⟨s1, [], Status.Closed⟩) := by
  have h1 : messageReceiver reads
      = (decodedBeforeFailure reads).map ChanOp.send ++ closeAtFailure reads :=
    messageReceiverFrom_eq ⟨"", ""⟩ reads
  have hlen : (decodedBeforeFailure reads).length = (reads.takeWhile isOk).length := by
    simp [decodedBeforeFailure, List.length_scanl]
  have htl : closeAtFailure reads = [] ∨ closeAtFailure reads = [ChanOp.close] := by
    unfold closeAtFailure
    split
    · exact Or.inl rfl
    · exact Or.inr rfl
  have htr : (handlerRun W s reads).trace
      = (negotiationLoop W s ((decodedBeforeFailure reads).map ChanOp.send)).trace := by
    unfold handlerRun
    rw [h1]
    rcases htl with h0 | hc
    · rw [h0, List.append_nil]
    · rw [hc, negotiationLoop_close]
  have hst : (handlerRun W s reads).status
      = if reads.all isOk then
          (negotiationLoop W s ((decodedBeforeFailure reads).map ChanOp.send)).status
        else Status.Closed := by
    unfold handlerRun
    rw [h1]
    unfold closeAtFailure
    by_cases hall : reads.all isOk = true
    · simp [hall]
    · simp only [hall, if_false, Bool.false_eq_true]
      rw [negotiationLoop_close]
  have htk : taken W s reads
      = received (negotiationLoop W s ((decodedBeforeFailure reads).map ChanOp.send)).trace := by
    unfold taken
    rw [htr]
  have hpre : taken W s reads <+: decodedBeforeFailure reads := by
    rw [htk]
    exact (received_negotiationLoop W s _).1
  have hpush : pushed W s reads
      = (taken W s reads).map ChanOp.send
        ++ (if taken W s reads = decodedBeforeFailure reads then closeAtFailure reads
            else []) := by
    unfold pushed
    rw [h1, performed_sends _ _ _ htl, ← List.prefix_iff_eq_take.1 hpre]
    by_cases heq : taken W s reads = decodedBeforeFailure reads
    · rw [if_pos heq, if_pos (by rw [heq])]
    · rw [if_neg heq, if_neg (fun hle => heq (hpre.eq_of_length_le hle))]
  have hdisp := negotiationLoop_dispatch W s (decodedBeforeFailure reads)
  refine ⟨h1, hlen, hpush, hpre, ?_, ?_, ?_, ?_, ?_, ?_⟩
  · rcases negotiationLoop_all_or_offer W s (decodedBeforeFailure reads) with hall | ⟨hc, m, hl, ho⟩
    · exact Or.inl (by rw [htk, hall])
    · refine Or.inr ⟨?_, m, by rw [htk]; exact hl, ho⟩
      rw [hst, hc]
      split <;> rfl
  · rw [htr, htk]
    exact hdisp.1
  · rw [htr, htk]
    exact hdisp.2
  · intro hW
    have hgo : ∀ (s1 : σ) (m : message), m ∈ decodedBeforeFailure reads →
        (handleMessage W s1 m).2.2 = true := by
      intro s1 m hmem
      by_cases hm : m.Type_ = "offer"
      · obtain ⟨s2, s3, s4, answer, e1, e2, e3⟩ := hW s1 m hmem hm
        rw [handleMessage_offer_go W s1 s2 s3 s4 m answer hm e1 e2 e3]
      · cases hb : (handleMessage W s1 m).2.2 with
        | true => rfl
        | false => exact absurd (handleMessage_stop_offer W s1 m hb) hm
    have hall := negotiationLoop_go_all W s (decodedBeforeFailure reads) hgo
    have htaken : taken W s reads = decodedBeforeFailure reads := by
      rw [htk]
      exact (received_negotiationLoop W s _).2 hall.1
    refine ⟨htaken, ?_, ?_, ?_⟩
    · rw [hpush, if_pos htaken, htaken, h1]
    · rw [htr]
      exact hall.2
    · rw [hst, hall.1]
  · intro hall
    refine ⟨?_, htr⟩
    rw [hst]
    simp [hall]
  · intro s1 rest
    rfl

/-- Witness of C6: an offer, a candidate and then a malformed frame, with a
library that accepts the offer: both messages are pushed and taken in order, the
close completes and the loop is Closed after exactly one answer; with a library
that rejects the offer the loop stops at it and the candidate is never taken. -/
theorem C6_receiver_order_and_close_witness :
    (taken okAPI 0 [.ok ⟨some "offer", some "good"⟩, .ok ⟨some "candidate", some "c1"⟩,
          .error "bad frame"]
        = [⟨"offer", "good"⟩, ⟨"candidate", "c1"⟩]
      ∧ pushed okAPI 0 [.ok ⟨some "offer", some "good"⟩, .ok ⟨some "candidate", some "c1"⟩,
          .error "bad frame"]
        = [ChanOp.send ⟨"offer", "good"⟩, ChanOp.send ⟨"candidate", "c1"⟩, ChanOp.close]
      ∧ (sent (handlerRun okAPI 0 [.ok ⟨some "offer", some "good"⟩,
          .ok ⟨some "candidate", some "c1"⟩, .error "bad frame"]).trace).length = 1
      ∧ (handlerRun okAPI 0 [.ok ⟨some "offer", some "good"⟩,
          .ok ⟨some "candidate", some "c1"⟩, .error "bad frame"]).status = Status.Closed)
      ∧ pushed pickyAPI 0 [.ok ⟨some "offer", some "bad"⟩,
          .ok ⟨some "candidate", some "c1"⟩, .error "bad frame"]
        = [ChanOp.send ⟨"offer", "bad"⟩] :=
  ⟨(C6_receiver_order_and_close okAPI 0 [.ok ⟨some "offer", some "good"⟩,
      .ok ⟨some "candidate", some "c1"⟩, .error "bad frame"]).2.2.2.2.2.2.2.1
      (fun s1 _ _ _ => ⟨s1 + 1, s1 + 2, s1 + 3, ⟨SDPType.Answer, "v=0 answer"⟩, rfl, rfl, rfl⟩),
   (C6_receiver_order_and_close pickyAPI 0 [.ok ⟨some "offer", some "bad"⟩,
      .ok ⟨some "candidate", some "c1"⟩, .error "bad frame"]).2.2.1⟩

/-- Every statement of the track creation keeps the shape of the state. -/
theorem setupStep_inv (E : SetupEnv) (st : Setup) (h : SetupInv E st) :
    SetupInv E (setupStep E st) := by
  obtain ⟨pc, ⟨lv, la⟩, added⟩ := st
  obtain ⟨vs, as, e1, e2, e3, e4⟩ := E
  cases pc <;> simp only [SetupInv] at h
  · obtain ⟨h1, h2⟩ := h
    cases e1 <;> simp_all [setupStep, NewTrack, SetupInv, videoTrackOf]
  · obtain ⟨h1, h2⟩ := h
    cases e2 <;> simp_all [setupStep, NewTrack, SetupInv, videoTrackOf]
  · obtain ⟨h1, h2⟩ := h
    cases e3 <;> simp_all [setupStep, NewTrack, SetupInv, videoTrackOf, audioTrackOf]
  · obtain ⟨h1, h2⟩ := h
    cases e4 <;> simp_all [setupStep, NewTrack, SetupInv, videoTrackOf, audioTrackOf]
  · simpa [setupStep, SetupInv] using h
  · simpa [setupStep, SetupInv] using h

/-- The shape holds after any number of statements of the track creation. -/
theorem setupAfter_inv (E : SetupEnv) (n : Nat) : SetupInv E (setupAfter E n) := by
  induction n with
  | zero => simp [setupAfter, setupInit, SetupInv]
  | succ n ih => exact setupStep_inv E _ ih

/-- During the track creation each captured variable is nil or holds the track
created for it. -/
theorem setupAfter_locals (E : SetupEnv) (n : Nat) :
    ((setupAfter E n).locals.localVideoTrack = none
        ∨ (setupAfter E n).locals.localVideoTrack = some (videoTrackOf E))
      ∧ ((setupAfter E n).locals.localAudioTrack = none
        ∨ (setupAfter E n).locals.localAudioTrack = some (audioTrackOf E)) := by
  have h := setupAfter_inv E n
  generalize setupAfter E n = st at h
  obtain ⟨pc, ⟨lv, la⟩, added⟩ := st
  cases pc <;> simp_all [SetupInv]

/-- The write of lines 202-206 records exactly one WriteRTP call. -/
theorem writeOut_events {σ : Type} (W : PeerAPI σ) (s : σ) (video : Track) (p : Packet) :
    (writeOut W s video p).2.1 = [Event.WriteRTP video p] := by
  unfold writeOut
  split <;> rfl

/-- Forwarding iteration, first case of the switch. -/
theorem forwardIteration_video {σ : Type} (W : PeerAPI σ) (s : σ) (video : Track)
    (la : Option Track) (p : Packet) (h : p.PayloadType = video.payloadType) :
    forwardIteration W s ⟨some video, la⟩ (.ok p)
      = writeOut W s video { p with SSRC := video.ssrc } := by
  simp only [forwardIteration, if_pos h]

/-- Forwarding iteration, second case of the switch. -/
theorem forwardIteration_audio {σ : Type} (W : PeerAPI σ) (s : σ) (video audio : Track)
    (p : Packet) (hv : p.PayloadType ≠ video.payloadType)
    (ha : p.PayloadType = audio.payloadType) :
    forwardIteration W s ⟨some video, some audio⟩ (.ok p)
      = writeOut W s video { p with SSRC := audio.ssrc } := by
  simp only [forwardIteration, if_neg hv, if_pos ha]

/-- Forwarding iteration, second case of the switch reached with a nil audio
track. -/
theorem forwardIteration_fault {σ : Type} (W : PeerAPI σ) (s : σ) (video : Track)
    (p : Packet) (hv : p.PayloadType ≠ video.payloadType) :
    forwardIteration W s ⟨some video, none⟩ (.ok p) = (s, [], Control.Fault) := by
  simp only [forwardIteration, if_neg hv]

/-- Forwarding iteration, default case of the switch. -/
theorem forwardIteration_default {σ : Type} (W : PeerAPI σ) (s : σ) (video audio : Track)
    (p : Packet) (hv : p.PayloadType ≠ video.payloadType)
    (ha : p.PayloadType ≠ audio.payloadType) :
    forwardIteration W s ⟨some video, some audio⟩ (.ok p) = (s, [], Control.Next) := by
  simp only [forwardIteration, if_neg hv, if_neg ha]

/-- C4: in every state of the track creation, a packet that the forwarding
iteration writes out is the inbound packet with only the SSRC replaced: by the
local video track's SSRC when its payload type is the video track's, by the
local audio track's SSRC when its payload type is the audio track's, and its
payload type is one of the two. -/
theorem C4_written_ssrc_is_local_track {σ : Type} (W : PeerAPI σ) (s : σ) (E : SetupEnv)
    (n : Nat) (p q : Packet) (t : Track)
    (hw : Event.WriteRTP t q
      ∈ (forwardIteration W s (setupAfter E n).locals (.ok p)).2.1) :
    (∀ video, (setupAfter E n).locals.localVideoTrack = some video →
        p.PayloadType = video.payloadType → q = { p with SSRC := video.ssrc })
      ∧ (∀ audio, (setupAfter E n).locals.localAudioTrack = some audio →
        p.PayloadType = audio.payloadType → q = { p with SSRC := audio.ssrc })
      ∧ ((∃ video, (setupAfter E n).locals.localVideoTrack = some video
            ∧ p.PayloadType = video.payloadType)
        ∨ (∃ audio, (setupAfter E n).locals.localAudioTrack = some audio
            ∧ p.PayloadType = audio.payloadType)) := by
  obtain ⟨hv, ha⟩ := setupAfter_locals E n
  generalize (setupAfter E n).locals = L at hv ha hw
  obtain ⟨lv, la⟩ := L
  simp only at hv ha
  have hne : (audioTrackOf E).payloadType ≠ (videoTrackOf E).payloadType := by
    simp [videoTrackOf, audioTrackOf, DefaultPayloadTypeVP8, DefaultPayloadTypeOpus]
  rcases hv with rfl | rfl
  · simp [forwardIteration] at hw
  · by_cases hpt : p.PayloadType = (videoTrackOf E).payloadType
    · rw [forwardIteration_video W s _ la p hpt, writeOut_events] at hw
      simp only [List.mem_singleton, Event.WriteRTP.injEq] at hw
      obtain ⟨-, rfl⟩ := hw
      refine ⟨?_, ?_, Or.inl ⟨_, rfl, hpt⟩⟩
      · intro video hvid _
        simp only [Option.some.injEq] at hvid
        subst hvid
        rfl
      · intro audio haud hpa
        rcases ha with rfl | rfl
        · simp at haud
        · simp only [Option.some.injEq] at haud
          subst haud
          exact absurd (hpa.symm.trans hpt) hne
    · rcases ha with rfl | rfl
      · rw [forwardIteration_fault W s _ p hpt] at hw
        simp at hw
      · by_cases hpa : p.PayloadType = (audioTrackOf E).payloadType
        · rw [forwardIteration_audio W s _ _ p hpt hpa, writeOut_events] at hw
          simp only [List.mem_singleton, Event.WriteRTP.injEq] at hw
          obtain ⟨-, rfl⟩ := hw
          refine ⟨?_, ?_, Or.inr ⟨_, rfl, hpa⟩⟩
          · intro video hvid hpv
            simp only [Option.some.injEq] at hvid
            subst hvid
            exact absurd hpv hpt
          · intro audio haud _
            simp only [Option.some.injEq] at haud
            subst haud
            rfl
        · rw [forwardIteration_default W s _ _ p hpt hpa] at hw
          simp at hw

/-- Witness of C4: with both tracks created, an inbound packet with the audio
payload type and SSRC 555 is written out, and it carries the audio track's SSRC
2002 with every other field as received. -/
theorem C4_written_ssrc_is_local_track_witness :
    Event.WriteRTP ⟨96, 1001, "video", "pion"⟩ ⟨false, 111, 17, 90000, 2002, [1, 2, 3]⟩
        ∈ (forwardIteration okAPI 0 (setupAfter okEnv 4).locals (.ok (samplePacket 111))).2.1
      ∧ (⟨false, 111, 17, 90000, 2002, [1, 2, 3]⟩ : Packet)
        = { samplePacket 111 with SSRC := (audioTrackOf okEnv).ssrc } :=
  ⟨by decide,
   (C4_written_ssrc_is_local_track okAPI 0 okEnv 4 (samplePacket 111)
      ⟨false, 111, 17, 90000, 2002, [1, 2, 3]⟩ ⟨96, 1001, "video", "pion"⟩
      (by decide)).2.1 (audioTrackOf okEnv) (by decide) (by decide)⟩

/-- Picture-loss indications along two concatenated traces. -/
theorem indications_append (xs ys : List Event) :
    indications (xs ++ ys) = indications xs ++ indications ys := by
  induction xs with
  | nil => rfl
  | cons e es ih => cases e <;> simp [indications, ih]

/-- The forwarding iteration sends no picture-loss indication. -/
theorem indications_forwardIteration {σ : Type} (W : PeerAPI σ) (s : σ) (L : Locals)
    (read : Except String Packet) :
    indications (forwardIteration W s L read).2.1 = [] := by
  obtain ⟨lv, la⟩ := L
  cases read with
  | error e => rfl
  | ok p =>
    cases lv with
    | none => rfl
    | some video =>
      by_cases hv : p.PayloadType = video.payloadType
      · rw [forwardIteration_video W s video la p hv, writeOut_events]
        rfl
      · cases la with
        | none => rw [forwardIteration_fault W s video p hv]; rfl
        | some audio =>
          by_cases ha : p.PayloadType = audio.payloadType
          · rw [forwardIteration_audio W s video audio p hv ha, writeOut_events]
            rfl
          · rw [forwardIteration_default W s video audio p hv ha]; rfl

/-- A step taken with the ticker goroutine stopped sends no picture-loss
indication and leaves it stopped. -/
theorem onTrackStep_ticker_stopped {σ : Type} (W : PeerAPI σ) (remoteSSRC : Nat) (s : σ)
    (T : Tasks) (i : Input) (h : T.ticker = false) :
    indications (onTrackStep W remoteSSRC s T i).2.1 = []
      ∧ (onTrackStep W remoteSSRC s T i).2.2.ticker = false := by
  obtain ⟨c, tk⟩ := T
  simp only at h
  subst h
  cases i with
  | tick => cases c <;> exact ⟨rfl, rfl⟩
  | packet L read =>
    cases c with
    | Next => exact ⟨indications_forwardIteration W s L read, rfl⟩
    | Return => exact ⟨rfl, rfl⟩
    | Fault => exact ⟨rfl, rfl⟩

/-- Once the ticker goroutine has stopped, no schedule makes it send again. -/
theorem onTrack_ticker_stopped {σ : Type} (W : PeerAPI σ) (remoteSSRC : Nat) (s : σ)
    (T : Tasks) (schedule : List Input) (h : T.ticker = false) :
    indications (onTrack W remoteSSRC s T schedule).2.1 = [] := by
  induction schedule generalizing s T with
  | nil => rfl
  | cons i is ih =>
    have hstep := onTrackStep_ticker_stopped W remoteSSRC s T i h
    rcases hs : onTrackStep W remoteSSRC s T i with ⟨s1, evs, T1⟩
    rw [hs] at hstep
    have hrest := ih s1 T1 hstep.2
    rcases hr : onTrack W remoteSSRC s1 T1 is with ⟨s2, evs2, T2⟩
    rw [hr] at hrest
    simp only [onTrack, hs, hr]
    rw [indications_append, hstep.1, hrest]
    rfl

/-- C8 (counterexample): after the forwarding loop has returned on a failed
ReadRTP, the next tick still sends a picture-loss indication for the remote
track's SSRC, and the ticker goroutine keeps running. -/
theorem C8_indication_after_forwarding_exit :
    (onTrackStep okAPI 7 0 tasksInit (Input.packet ⟨none, none⟩ (.error "EOF"))).2.2
        = ⟨Control.Return, true⟩
      ∧ onTrack okAPI 7 0 tasksInit [Input.packet ⟨none, none⟩ (.error "EOF"), Input.tick]
        = (1, [Event.WriteRTCP 7], ⟨Control.Return, true⟩)
      ∧ indications (onTrack okAPI 7 0 tasksInit
          [Input.packet ⟨none, none⟩ (.error "EOF"), Input.tick, Input.tick]).2.1
        = [7, 7] := by
  decide

/-- C8 (amended): the feedback loop stops only when WriteRTCP fails.  While the
process has not panicked and the ticker goroutine runs, each tick makes one
WriteRTCP call with a picture-loss indication for the remote track's SSRC,
whether the forwarding loop is running or has returned, and the goroutine goes
on exactly when the call succeeds; no outcome of a forwarding iteration stops
it; and once it has stopped, no further indication is sent. -/
theorem C8_feedback_stops_on_write_failure_only {σ : Type} (W : PeerAPI σ)
    (remoteSSRC : Nat) (s : σ) (T : Tasks) (hf : T.forwarding ≠ Control.Fault) :
    (T.ticker = true →
        onTrackStep W remoteSSRC s T Input.tick
          = ((W.WriteRTCP s remoteSSRC).1, [Event.WriteRTCP remoteSSRC],
             ⟨T.forwarding, (W.WriteRTCP s remoteSSRC).2.isNone⟩))
      ∧ (∀ (L : Locals) (read : Except String Packet),
          (onTrackStep W remoteSSRC s T (Input.packet L read)).2.2.ticker = T.ticker)
      ∧ (T.ticker = false → ∀ schedule : List Input,
          indications (onTrack W remoteSSRC s T schedule).2.1 = []) := by
  obtain ⟨c, tk⟩ := T
  simp only at hf
  refine ⟨?_, ?_, fun h schedule => onTrack_ticker_stopped W remoteSSRC s _ schedule h⟩
  · intro h
    simp only at h
    subst h
    rcases hw : W.WriteRTCP s remoteSSRC with ⟨s1, e⟩
    cases c with
    | Fault => exact absurd rfl hf
    | Next => cases e <;> simp [onTrackStep, pliIteration, hw]
    | Return => cases e <;> simp [onTrackStep, pliIteration, hw]
  · intro L read
    cases c with
    | Fault => exact absurd rfl hf
    | Next => rfl
    | Return => rfl

/-- Witness of C8 (amended): with the forwarding loop returned and a WriteRTCP
that succeeds, a tick sends the indication and the goroutine goes on. -/
theorem C8_feedback_stops_on_write_failure_only_witness :
    onTrackStep okAPI 7 0 ⟨Control.Return, true⟩ Input.tick
      = (1, [Event.WriteRTCP 7], ⟨Control.Return, true⟩) :=
  (C8_feedback_stops_on_write_failure_only okAPI 7 0 ⟨Control.Return, true⟩
    (by decide)).1 rfl

/-- In the handler loop both local tracks are created and added. -/
theorem tracksReady_of_loop (E : SetupEnv) (st : Setup) (h : SetupInv E st)
    (hpc : st.pc = SetupPC.Loop) : tracksReady st = true := by
  obtain ⟨pc, ⟨lv, la⟩, added⟩ := st
  simp only at hpc
  subst hpc
  simp only [SetupInv] at h
  obtain ⟨h1, h2⟩ := h
  simp only [Locals.mk.injEq] at h1
  obtain ⟨rfl, rfl⟩ := h1
  subst h2
  simp [tracksReady]

/-- In the handler loop both captured variables are set. -/
theorem locals_of_loop (E : SetupEnv) (st : Setup) (h : SetupInv E st)
    (hpc : st.pc = SetupPC.Loop) :
    st.locals = ⟨some (videoTrackOf E), some (audioTrackOf E)⟩ := by
  obtain ⟨pc, L, added⟩ := st
  simp only at hpc
  subst hpc
  simp only [SetupInv] at h
  exact h.1

/-- A statement of the track creation does not leave the handler loop. -/
theorem setupStep_loop (E : SetupEnv) (st : Setup) (hpc : st.pc = SetupPC.Loop) :
    (setupStep E st).pc = SetupPC.Loop := by
  obtain ⟨pc, L, added⟩ := st
  simp only at hpc
  subst hpc
  rfl

/-- The write of lines 202-206 ends the iteration without a panic. -/
theorem writeOut_control {σ : Type} (W : PeerAPI σ) (s : σ) (video : Track) (p : Packet) :
    (writeOut W s video p).2.2 ≠ Control.Fault := by
  unfold writeOut
  split <;> simp

/-- With both captured variables set, the forwarding iteration does not panic. -/
theorem forwardIteration_both {σ : Type} (W : PeerAPI σ) (s : σ) (video audio : Track)
    (read : Except String Packet) :
    (forwardIteration W s ⟨some video, some audio⟩ read).2.2 ≠ Control.Fault := by
  cases read with
  | error e => simp [forwardIteration]
  | ok p =>
    by_cases hv : p.PayloadType = video.payloadType
    · rw [forwardIteration_video W s video _ p hv]
      exact writeOut_control W s video _
    · by_cases ha : p.PayloadType = audio.payloadType
      · rw [forwardIteration_audio W s video audio p hv ha]
        exact writeOut_control W s video _
      · rw [forwardIteration_default W s video audio p hv ha]
        simp

/-- Packets written along two concatenated traces. -/
theorem written_append (xs ys : List Event) :
    written (xs ++ ys) = written xs ++ written ys := by
  induction xs with
  | nil => rfl
  | cons e es ih => cases e <;> simp [written, ih]

/-- The handling of one message writes no packet. -/
theorem written_handleMessage {σ : Type} (W : PeerAPI σ) (s : σ) (m : message) :
    written (handleMessage W s m).2.1 = [] := by
  unfold handleMessage
  split
  · dsimp only
    split
    · rfl
    · split
      · rfl
      · split <;> rfl
  · split <;> rfl

/-- The negotiation loop writes no packet. -/
theorem written_negotiationLoop {σ : Type} (W : PeerAPI σ) (s : σ) (ops : List ChanOp) :
    written (negotiationLoop W s ops).trace = [] := by
  induction ops generalizing s with
  | nil => rfl
  | cons op rest ih =>
    cases op with
    | close => rfl
    | send m =>
      rcases hh : handleMessage W s m with ⟨s1, evs, go⟩
      have hw : written evs = [] := by
        have := written_handleMessage W s m
        rw [hh] at this
        exact this
      cases go with
      | false =>
        rw [negotiationLoop_send_stop W s s1 m evs rest hh]
        simp [written, hw]
      | true =>
        rw [negotiationLoop_send_go W s s1 m evs rest hh]
        show written (evs ++ (negotiationLoop W s1 rest).trace) = []
        rw [written_append, hw, ih s1]
        rfl

/-- Every step of a session keeps the session invariant. -/
theorem sessionStep_inv {σ : Type} (W : PeerAPI σ) (remoteSSRC : Nat) (E : SetupEnv)
    (st : Session σ) (i : SessionInput) (h : SessionInv E st) :
    SessionInv E (sessionStep W remoteSSRC E st i).1 := by
  obtain ⟨hs, hr, hf⟩ := h
  cases i with
  | handler =>
    refine ⟨setupStep_inv E _ hs, fun hrd => ?_, hf⟩
    exact setupStep_loop E _ (hr hrd)
  | chan op =>
    by_cases hg : st.setup.pc = SetupPC.Loop ∧ st.status = Status.Waiting
    · simp only [sessionStep, if_pos hg]
      exact ⟨hs, fun _ => hg.1, hf⟩
    · simp only [sessionStep, if_neg hg]
      exact ⟨hs, hr, hf⟩
  | packet read =>
    cases hrd : st.remoteDescribed with
    | false =>
      simp only [sessionStep, hrd, Bool.false_eq_true, if_false]
      exact ⟨hs, hr, hf⟩
    | true =>
      have hL := locals_of_loop E _ hs (hr hrd)
      simp only [sessionStep, hrd, if_true]
      refine ⟨hs, fun _ => hr hrd, ?_⟩
      rcases hT : st.tasks with ⟨c, tk⟩
      rw [hT] at hf
      cases c with
      | Fault => exact absurd rfl hf
      | Return => simp [onTrackStep]
      | Next =>
        simp only [onTrackStep, hL]
        exact forwardIteration_both W st.lib _ _ read
  | tick =>
    cases hrd : st.remoteDescribed with
    | false =>
      simp only [sessionStep, hrd, Bool.false_eq_true, if_false]
      exact ⟨hs, hr, hf⟩
    | true =>
      simp only [sessionStep, hrd, if_true]
      refine ⟨hs, fun _ => hr hrd, ?_⟩
      rcases hT : st.tasks with ⟨c, tk⟩
      rw [hT] at hf
      cases c with
      | Fault => exact absurd rfl hf
      | Return => cases tk <;> simp [onTrackStep]
      | Next => cases tk <;> simp [onTrackStep]

/-- Every state reached by a session satisfies the session invariant. -/
theorem sessionRun_inv {σ : Type} (W : PeerAPI σ) (remoteSSRC : Nat) (E : SetupEnv)
    (st : Session σ) (schedule : List SessionInput) (h : SessionInv E st) :
    SessionInv E (sessionRun W remoteSSRC E st schedule).1 := by
  induction schedule generalizing st with
  | nil => exact h
  | cons i is ih =>
    have h1 := sessionStep_inv W remoteSSRC E st i h
    rcases hs : sessionStep W remoteSSRC E st i with ⟨st1, evs⟩
    rw [hs] at h1
    have h2 := ih st1 h1
    rcases hr : sessionRun W remoteSSRC E st1 is with ⟨st2, evs2⟩
    rw [hr] at h2
    simp only [sessionRun, hs, hr]
    exact h2

/-- The initial session satisfies the session invariant. -/
theorem sessionInit_inv {σ : Type} (E : SetupEnv) (s : σ) : SessionInv E (sessionInit s) := by
  simp [SessionInv, sessionInit, setupInit, SetupInv, tasksInit]

/-- A step that leaves the session without a remote description writes no
packet and started without one. -/
theorem sessionStep_undescribed {σ : Type} (W : PeerAPI σ) (remoteSSRC : Nat)
    (E : SetupEnv) (st : Session σ) (i : SessionInput)
    (h : (sessionStep W remoteSSRC E st i).1.remoteDescribed = false) :
    st.remoteDescribed = false ∧ written (sessionStep W remoteSSRC E st i).2 = [] := by
  cases hrd : st.remoteDescribed with
  | true =>
    exfalso
    cases i with
    | handler => simp [sessionStep, hrd] at h
    | chan op =>
      by_cases hg : st.setup.pc = SetupPC.Loop ∧ st.status = Status.Waiting
      · simp [sessionStep, if_pos hg, hrd] at h
      · simp [sessionStep, if_neg hg, hrd] at h
    | packet read => simp [sessionStep, hrd] at h
    | tick => simp [sessionStep, hrd] at h
  | false =>
    refine ⟨rfl, ?_⟩
    cases i with
    | handler => rfl
    | chan op =>
      by_cases hg : st.setup.pc = SetupPC.Loop ∧ st.status = Status.Waiting
      · simp only [sessionStep, if_pos hg]
        exact written_negotiationLoop W st.lib [op]
      · simp only [sessionStep, if_neg hg]
        rfl
    | packet read => simp [sessionStep, hrd, written]
    | tick => simp [sessionStep, hrd, written]

/-- A session that ends without a remote description started without one. -/
theorem sessionRun_undescribed_start {σ : Type} (W : PeerAPI σ) (remoteSSRC : Nat)
    (E : SetupEnv) (st : Session σ) (schedule : List SessionInput)
    (h : (sessionRun W remoteSSRC E st schedule).1.remoteDescribed = false) :
    st.remoteDescribed = false := by
  induction schedule generalizing st with
  | nil => exact h
  | cons i is ih =>
    rcases hs : sessionStep W remoteSSRC E st i with ⟨st1, evs⟩
    rcases hr : sessionRun W remoteSSRC E st1 is with ⟨st2, evs2⟩
    simp only [sessionRun, hs, hr] at h
    have hmid : st1.remoteDescribed = false := ih st1 (by rw [hr]; exact h)
    exact (sessionStep_undescribed W remoteSSRC E st i (by rw [hs]; exact hmid)).1

/-- A session that ends without a remote description has written no packet. -/
theorem sessionRun_undescribed {σ : Type} (W : PeerAPI σ) (remoteSSRC : Nat)
    (E : SetupEnv) (st : Session σ) (schedule : List SessionInput)
    (h : (sessionRun W remoteSSRC E st schedule).1.remoteDescribed = false) :
    written (sessionRun W remoteSSRC E st schedule).2 = [] := by
  induction schedule generalizing st with
  | nil => rfl
  | cons i is ih =>
    rcases hs : sessionStep W remoteSSRC E st i with ⟨st1, evs⟩
    rcases hr : sessionRun W remoteSSRC E st1 is with ⟨st2, evs2⟩
    simp only [sessionRun, hs, hr] at h ⊢
    have hfin : (sessionRun W remoteSSRC E st1 is).1.remoteDescribed = false := by
      rw [hr]; exact h
    have h2 : written evs2 = [] := by
      have := ih st1 hfin
      rw [hr] at this
      exact this
    have hmid := sessionRun_undescribed_start W remoteSSRC E st1 is hfin
    have h1 := (sessionStep_undescribed W remoteSSRC E st i (by rw [hs]; exact hmid)).2
    rw [hs] at h1
    rw [written_append, h1, h2]
    rfl

/-- C2: in every session and under every interleaving of its steps, as long as
the two local tracks are not both created and added, no packet has been written
to a local track, and an inbound packet of any payload type is not forwarded:
the step makes no call and changes nothing. -/
theorem C2_no_forwarding_before_tracks_ready {σ : Type} (W : PeerAPI σ) (remoteSSRC : Nat)
    (E : SetupEnv) (s0 : σ) (schedule : List SessionInput)
    (h : tracksReady (sessionRun W remoteSSRC E (sessionInit s0) schedule).1.setup = false) :
    written (sessionRun W remoteSSRC E (sessionInit s0) schedule).2 = []
      ∧ ∀ read : Except String Packet,
          sessionStep W remoteSSRC E (sessionRun W remoteSSRC E (sessionInit s0) schedule).1
              (SessionInput.packet read)
            = ((sessionRun W remoteSSRC E (sessionInit s0) schedule).1, []) := by
  have hinv := sessionRun_inv W remoteSSRC E (sessionInit s0) schedule (sessionInit_inv E s0)
  obtain ⟨hs, hr, -⟩ := hinv
  have hrd : (sessionRun W remoteSSRC E (sessionInit s0) schedule).1.remoteDescribed = false := by
    cases hb : (sessionRun W remoteSSRC E (sessionInit s0) schedule).1.remoteDescribed with
    | false => rfl
    | true =>
      have := tracksReady_of_loop E _ hs (hr hb)
      rw [h] at this
      exact absurd this (by simp)
  refine ⟨sessionRun_undescribed W remoteSSRC E _ schedule hrd, fun read => ?_⟩
  simp [sessionStep, hrd]

/-- Witness of C2: with the audio track created but not yet added, an offer
waiting on the channel is not yet taken and an inbound packet is not forwarded;
once both tracks are added and the offer is applied, the packet is written. -/
theorem C2_no_forwarding_before_tracks_ready_witness :
    tracksReady (sessionRun okAPI 7 okEnv (sessionInit 0)
        [SessionInput.handler, SessionInput.handler, SessionInput.handler,
         SessionInput.chan (ChanOp.send ⟨"offer", "sdp"⟩)]).1.setup = false
      ∧ (written (sessionRun okAPI 7 okEnv (sessionInit 0)
          [SessionInput.handler, SessionInput.handler, SessionInput.handler,
           SessionInput.chan (ChanOp.send ⟨"offer", "sdp"⟩)]).2 = []
        ∧ ∀ read : Except String Packet,
          sessionStep okAPI 7 okEnv (sessionRun okAPI 7 okEnv (sessionInit 0)
              [SessionInput.handler, SessionInput.handler, SessionInput.handler,
               SessionInput.chan (ChanOp.send ⟨"offer", "sdp"⟩)]).1
              (SessionInput.packet read)
            = ((sessionRun okAPI 7 okEnv (sessionInit 0)
              [SessionInput.handler, SessionInput.handler, SessionInput.handler,
               SessionInput.chan (ChanOp.send ⟨"offer", "sdp"⟩)]).1, []))
      ∧ written (sessionRun okAPI 7 okEnv (sessionInit 0)
          [SessionInput.handler, SessionInput.handler, SessionInput.handler,
           SessionInput.handler, SessionInput.chan (ChanOp.send ⟨"offer", "sdp"⟩),
           SessionInput.packet (.ok (samplePacket 96))]).2
        = [(⟨96, 1001, "video", "pion"⟩, ⟨false, 96, 17, 90000, 1001, [1, 2, 3]⟩)] :=
  ⟨by decide,
   C2_no_forwarding_before_tracks_ready okAPI 7 okEnv 0
     [SessionInput.handler, SessionInput.handler, SessionInput.handler,
      SessionInput.chan (ChanOp.send ⟨"offer", "sdp"⟩)] (by decide),
   by decide⟩

/-- C9: in every session and under every interleaving of its steps, the
forwarding loop never dereferences an unset local track: no state reached has a
panicked forwarding loop and no further step produces one; once a remote
description is applied both captured variables are set and an iteration on any
inbound packet completes without a nil pointer fault; before that no iteration
runs, whatever the captured variables hold. -/
theorem C9_forwarding_never_faults {σ : Type} (W : PeerAPI σ) (remoteSSRC : Nat)
    (E : SetupEnv) (s0 : σ) (schedule : List SessionInput) :
    (sessionRun W remoteSSRC E (sessionInit s0) schedule).1.tasks.forwarding ≠ Control.Fault
      ∧ (∀ i : SessionInput,
          (sessionStep W remoteSSRC E (sessionRun W remoteSSRC E (sessionInit s0) schedule).1
            i).1.tasks.forwarding ≠ Control.Fault)
      ∧ ((sessionRun W remoteSSRC E (sessionInit s0) schedule).1.remoteDescribed = true →
          (∃ video audio,
              (sessionRun W remoteSSRC E (sessionInit s0) schedule).1.setup.locals
                = ⟨some video, some audio⟩)
            ∧ ∀ (s : σ) (read : Except String Packet),
              (forwardIteration W s
                (sessionRun W remoteSSRC E (sessionInit s0) schedule).1.setup.locals
                read).2.2 ≠ Control.Fault)
      ∧ ((sessionRun W remoteSSRC E (sessionInit s0) schedule).1.remoteDescribed = false →
          ∀ read : Except String Packet,
            sessionStep W remoteSSRC E
                (sessionRun W remoteSSRC E (sessionInit s0) schedule).1
                (SessionInput.packet read)
              = ((sessionRun W remoteSSRC E (sessionInit s0) schedule).1, [])) := by
  have hinv := sessionRun_inv W remoteSSRC E (sessionInit s0) schedule (sessionInit_inv E s0)
  refine ⟨hinv.2.2, fun i => (sessionStep_inv W remoteSSRC E _ i hinv).2.2, fun hrd => ?_,
    fun hrd read => ?_⟩
  · have hL := locals_of_loop E _ hinv.1 (hinv.2.1 hrd)
    refine ⟨⟨_, _, hL⟩, fun s read => ?_⟩
    rw [hL]
    exact forwardIteration_both W s _ _ read
  · simp [sessionStep, hrd]

end PionEcho
